import Mathlib

/-!
Verification of the rust-voice repository: a shallow embedding in Lean 4 of
the SeqNum arithmetic and ordering (common/src/packets.rs), the server
session manager (server/src/server.rs), the client receive path
(client/src/client.rs), the per-peer jitter channel and sample mixer
(client/src/services/mixer.rs), and the frame mixer indexed by u8 peer ids
(client/src/mixer.rs, common/src/lib.rs).

Machine integers are modelled as Nat with explicit `% 2^w` where the source
wraps; Rust's unchecked `+` / `+=` (which is an arithmetic-overflow panic
under overflow checks) is modelled as an Option that is `none` on overflow;
a Rust `panic!`/`expect` is modelled as the error case of `Except`/`Option`.
Timestamps (`Instant`) are abstract Nat instants; `elapsed` at time `now` is
`now - lastReply`.
-/

namespace RustVoice

/-! ## SeqNum (common/src/packets.rs) -/

/-- `const HALF: u16 = u16::MAX / 2` from `impl Ord for SeqNum`. -/
def seqHalf : Nat := 65535 / 2

/-- `impl Ord for SeqNum::cmp`: equal if `a == b`; `Greater` if
`(a > b && a - b <= HALF) || (a < b && b - a > HALF)`; else `Less`.
Operands are u16 values (`< 2^16`); `-` is Rust u16 subtraction on the
branch where it cannot underflow, so Nat subtraction is exact. -/
def seqCmp (a b : Nat) : Ordering :=
  if a = b then Ordering.eq
  else if (b < a ∧ a - b ≤ seqHalf) ∨ (a < b ∧ seqHalf < b - a) then Ordering.gt
  else Ordering.lt

/-- Rust `a > b` on `SeqNum`, derived from `Ord::cmp`. -/
def seqGt (a b : Nat) : Prop := seqCmp a b = Ordering.gt

instance (a b : Nat) : Decidable (seqGt a b) := by
  unfold seqGt; infer_instance

/-- `(a - b) mod 2^16` computed on u16 operands `a, b < 2^16`. -/
def seqDiffMod (a b : Nat) : Nat := (a + 65536 - b) % 65536

/-- `|a - b|` for u16 operands (absolute difference of the numeric values). -/
def absDiff (a b : Nat) : Nat := if b ≤ a then a - b else b - a

/-- `impl Add<u16> for SeqNum`: `self.0.wrapping_add(rhs)`. -/
def seqAdd (a b : Nat) : Nat := (a + b) % 65536

/-- `impl AddAssign<u16> for SeqNum`: `self.0 += rhs` — plain (non-wrapping)
u16 addition, an arithmetic-overflow panic when overflow checks are enabled
(the default in debug and test profiles); `none` models the overflow case. -/
def seqAddAssign (a b : Nat) : Option Nat :=
  if a + b < 65536 then some (a + b) else none

/-- `Client::service`: `seq_num += 1` after sending each voice packet
(client/src/client.rs), via the `AddAssign` impl above. -/
def clientSeqAdvance (s : Nat) : Option Nat := seqAddAssign s 1

/-! ## Server session manager (server/src/server.rs)

Socket addresses are abstract `Nat` identifiers; `Instant` is an abstract
`Nat` time. `HashMap<SocketAddr, User>` is an association list with unique
keys. IO sends become an emitted list of `(addr, message)` events and log
calls a list of log strings. -/

/-- `UserInfo` (common/src/user.rs): `{id: u32, username}`. -/
structure UserInfo where
  id : Nat
  username : String
deriving DecidableEq

/-- Server-side `User`: `{id, username, addr, last_reply}`. -/
structure User where
  id : Nat
  username : String
  addr : Nat
  lastReply : Nat
deriving DecidableEq

/-- `User::info`. -/
def User.info (u : User) : UserInfo := ⟨u.id, u.username⟩

/-- `AudioPacket<u8>`: `{seq_num, peer_id: u8, data}`. -/
structure AudioPacket where
  seqNum : Nat
  peerId : Nat
  data : List Nat
deriving DecidableEq

/-- `ClientMessage` (common/src/packets.rs). -/
inductive ClientMessage where
  | connect (username : String)
  | disconnect
  | ping
  | voice (seqNum : Nat) (samples : List Nat)
deriving DecidableEq

/-- `ServerMessage` (common/src/packets.rs). -/
inductive ServerMessage where
  | pong
  | connected (info : UserInfo)
  | disconnected (info : UserInfo)
  | voice (packet : AudioPacket)
deriving DecidableEq

/-- The server's mutable state: `users` table and the id `counter`. -/
structure ServerState where
  users : List (Nat × User)
  counter : Nat
deriving DecidableEq

/-- What one server step produces besides the new state: datagrams sent
(`send_to` calls, in order) and log lines. -/
structure ServerOutput where
  state : ServerState
  sends : List (Nat × ServerMessage)
  logs : List String
deriving DecidableEq

/-- `users.get(&addr)` on the association-list model. -/
def lookupUser (users : List (Nat × User)) (addr : Nat) : Option User :=
  (users.find? (fun p => p.1 = addr)).map (·.2)

/-- The prologue of `Server::handle_command`: `users.get_mut(&addr)` and, if
present, `user.last_reply = Instant::now()`. -/
def refreshUsers (now addr : Nat) (users : List (Nat × User)) : List (Nat × User) :=
  users.map (fun p => if p.1 = addr then (p.1, { p.2 with lastReply := now }) else p)

/-- `Server::broadcast(command, ignore)`: iterate the user table; skip the
entry whose addr equals `ignore`; send `command` to every other addr. -/
def broadcast (users : List (Nat × User)) (command : ServerMessage)
    (ignore : Option Nat) : List (Nat × ServerMessage) :=
  users.filterMap (fun p => if some p.1 = ignore then none else some (p.1, command))

/-- `Server::handle_command(addr, command)`: refresh the sender's
`last_reply` if present, then dispatch on the message kind exactly as the
`match` in server/src/server.rs does. -/
def handleCommand (now addr : Nat) (command : ClientMessage)
    (st : ServerState) : ServerOutput :=
  let users1 := refreshUsers now addr st.users
  let user := lookupUser users1 addr
  let st1 : ServerState := { st with users := users1 }
  match command with
  | ClientMessage.connect username =>
    match user with
    | some _ =>
      { state := st1, sends := [],
        logs := ["Connection from " ++ toString addr ++ " already exists"] }
    | none =>
      let id := st1.counter % 4294967296
      let newUser : User := { id := id, username := username, addr := addr, lastReply := now }
      let helloSends := (addr, ServerMessage.pong) ::
        users1.map (fun p => (addr, ServerMessage.connected p.2.info))
      let users2 := users1 ++ [(addr, newUser)]
      { state := { users := users2, counter := st1.counter + 1 },
        sends := helloSends ++ broadcast users2 (ServerMessage.connected newUser.info) (some addr),
        logs := ["'" ++ username ++ "' connected"] }
  | ClientMessage.disconnect =>
    match user with
    | none => { state := st1, sends := [], logs := [] }
    | some u =>
      let users2 := users1.filter (fun p => p.1 ≠ u.addr)
      { state := { st1 with users := users2 },
        sends := broadcast users2 (ServerMessage.disconnected u.info) none,
        logs := ["'" ++ u.username ++ "' left."] }
  | ClientMessage.ping =>
    match user with
    | none => { state := st1, sends := [], logs := [] }
    | some _ => { state := st1, sends := [(addr, ServerMessage.pong)], logs := [] }
  | ClientMessage.voice seqNum samples =>
    match user with
    | none => { state := st1, sends := [], logs := [] }
    | some u =>
      { state := st1,
        sends := broadcast users1
          (ServerMessage.voice { seqNum := seqNum, peerId := u.id % 256, data := samples })
          (some addr),
        logs := [] }

/-- The heartbeat branch of `Server::service`: on a tick at time `now`,
`users.retain(|_, user| user.last_reply.elapsed() < timeout)`; a log line if
users were lost. No message is sent from this branch. -/
def heartbeatTick (now timeout : Nat) (st : ServerState) : ServerOutput :=
  let users2 := st.users.filter (fun p => now - p.2.lastReply < timeout)
  { state := { st with users := users2 },
    sends := [],
    logs := if users2.length < st.users.length then ["users lost connection"] else [] }

/-- The receive branch of `Server::service`: `ClientMessage::from_bytes`
(bincode, an external decoder modelled by its `Option` result) feeds
`handle_command` on success; on failure the server only logs
"Failed to parse packet". -/
def serverRecvStep (now addr : Nat) (parsed : Option ClientMessage)
    (st : ServerState) : ServerOutput :=
  match parsed with
  | some command => handleCommand now addr command st
  | none => { state := st, sends := [], logs := ["Failed to parse packet"] }

/-! ## Client receive path (client/src/client.rs) -/

/-- Effects `Client::recv` can have after a successful decode: forward a
voice packet to `peer_tx`, forward a `Connected` user to
`peer_connected_tx`, or log an unexpected-packet error. -/
inductive ClientEffect where
  | pushPeerPacket (packet : AudioPacket)
  | peerConnected (info : UserInfo)
  | logUnexpected
deriving DecidableEq

/-- `Client::recv`: `ServerMessage::from_bytes(buf).expect("Invalid packet
from server.")` — a decode failure is a panic, modelled as `Except.error`;
on success, dispatch on the message kind. -/
def clientRecv (parsed : Option ServerMessage) : Except String (List ClientEffect) :=
  match parsed with
  | none => Except.error "Invalid packet from server."
  | some (ServerMessage.voice packet) => Except.ok [ClientEffect.pushPeerPacket packet]
  | some (ServerMessage.connected info) => Except.ok [ClientEffect.peerConnected info]
  | some _ => Except.ok [ClientEffect.logUnexpected]

/-! ## Per-peer jitter channel and sample mixer (client/src/services/mixer.rs) -/

/-- The SPSC ring buffer backing a `Channel` (`HeapRb<S>` with `S = f32`):
a bounded FIFO; `buf` holds the queued samples, oldest first. Samples are
kept exact (`Int`) — only which samples flow matters for these claims. -/
structure Rb where
  capacity : Nat
  buf : List Int
deriving DecidableEq

/-- `Producer::push`: `Err` (here `none`) when the buffer is full. -/
def rbPush (x : Int) (rb : Rb) : Option Rb :=
  if rb.buf.length < rb.capacity then some { rb with buf := rb.buf ++ [x] } else none

/-- `Consumer::pop`: `None` when empty, else the oldest sample. -/
def rbPop (rb : Rb) : Option Int × Rb :=
  match rb.buf with
  | [] => (none, rb)
  | x :: rest => (some x, { rb with buf := rest })

/-- `Channel::new(latency)`: `HeapRb::new(latency.samples()*2)`, then
`latency.samples()` pushes of `Default::default()` (zero), each one
`.unwrap()`ed — `none` models the unwrap panic. -/
def channelNew (samples : Nat) : Option Rb :=
  (List.range samples).foldlM (fun rb _ => rbPush 0 rb) ⟨2 * samples, []⟩

/-- Apply `rbPop` `n` times, discarding the popped samples. -/
def rbPopN (rb : Rb) : Nat → Rb
  | 0 => rb
  | n + 1 => rbPopN (rbPop rb).2 n

/-- `PeerMixer::next` (the `AudioSource` impl): iterate the per-peer
channels; on each successful `pop`,
`sample = Some(sample.unwrap_or_default() + s)`. Channels are modelled by
their queues of pending samples, oldest first; the accumulator threads
left-to-right exactly as the `for` loop does. -/
def mixerNextAux : Option Int → List (List Int) → Option Int × List (List Int)
  | acc, [] => (acc, [])
  | acc, [] :: rest =>
    let r := mixerNextAux acc rest
    (r.1, [] :: r.2)
  | acc, (x :: xs) :: rest =>
    let r := mixerNextAux (some (acc.getD 0 + x)) rest
    (r.1, xs :: r.2)

/-- One call to `PeerMixer::next()` on the given channel queues. -/
def mixerNext (chs : List (List Int)) : Option Int × List (List Int) :=
  mixerNextAux none chs

/-- The value of the `i`-th call to `next()` (numbered from 0), threading
the advanced channel states through the earlier calls. -/
def mixerIter : Nat → List (List Int) → Option Int
  | 0, chs => (mixerNext chs).1
  | n + 1, chs => mixerIter n (mixerNext chs).2

/-- The sum of one popped sample per channel, an empty (underrun) channel
contributing zero. -/
def headsSum (chs : List (List Int)) : Int :=
  (chs.map (fun ch => ch.headD 0)).sum

/-! ## u8 peer ids and the frame mixer (common/src/lib.rs, client/src/mixer.rs) -/

/-- `pub const MAX_PEERS: usize = u8::MAX as usize;` — that is 255, although
the adjacent comment reads `// max 256 peers`. -/
def MAX_PEERS : Nat := 255

/-- `FRAME_SIZE` (common/src/packets.rs). -/
def FRAME_SIZE : Nat := 1920

/-- A frame-mixer `Channel`: a `VecDeque<AudioFrame>`; frames are
represented by their `seq_num`, which is all these claims inspect. -/
structure FrameChannel where
  buffer : List Nat
deriving DecidableEq

/-- The frame `Mixer` (client/src/mixer.rs):
`peers: [Option<Channel>; MAX_PEERS]` plus the `active` index list. -/
structure Mixer where
  peers : List (Option FrameChannel)
  active : List Nat
deriving DecidableEq

/-- `Mixer::new`. -/
def mixerNew : Mixer :=
  { peers := List.replicate MAX_PEERS none, active := [] }

/-- `Mixer::add_peer(id)`:
`self.peers.get_mut(id as usize).expect("peer id out of bounds")` — the
`expect` panics (`Except.error`) when `id` is not a valid index of the
length-`MAX_PEERS` array; an occupied slot only logs a warning. -/
def addPeer (id : Nat) (m : Mixer) : Except String Mixer :=
  match m.peers.get? id with
  | none => Except.error "peer id out of bounds"
  | some (some _) => Except.ok m
  | some none =>
    Except.ok { peers := m.peers.set id (some ⟨[]⟩), active := m.active ++ [id] }

/-- `Mixer::push_data(data)`: index `peers` by `data.peer_id as usize` with
the same `expect`; a `None` slot logs "Could not find peer"; a present
channel enqueues the frame iff the packet converts to an `AudioFrame`
(`data.len == FRAME_SIZE`), else logs "bad pak len". -/
def pushData (pak : AudioPacket) (m : Mixer) : Except String Mixer :=
  match m.peers.get? pak.peerId with
  | none => Except.error "peer id out of bounds"
  | some none => Except.ok m
  | some (some ch) =>
    if pak.data.length = FRAME_SIZE then
      Except.ok { m with peers := m.peers.set pak.peerId (some ⟨ch.buffer ++ [pak.seqNum]⟩) }
    else
      Except.ok m

end RustVoice

namespace RustVoice

/-- C1 counterexample inputs: at `a = b = 0` the side condition
`|a - b| mod 2^16 ≠ 2^15` holds and `(a - b) mod 2^16 = 0 < 2^15`,
yet `SeqNum 0 > SeqNum 0` is false, so the claimed iff fails. -/
theorem c1_counterexample :
    absDiff 0 0 % 65536 ≠ 32768 ∧ seqDiffMod 0 0 < 32768 ∧ ¬ seqGt 0 0 := by
  refine ⟨by decide, by decide, by decide⟩

/-- C1 (amended): for u16 values `a, b`, exactly one of `a > b`, `b > a`,
`a = b` holds under SeqNum's `Ord`; for **distinct** `a, b` with
`|a - b| mod 2^16 ≠ 2^15`, `a > b` holds iff `(a - b) mod 2^16 < 2^15`;
and `0 > 65535`, `32767 > 65535`, while `32768` is not greater than `65535`. -/
theorem seqnum_order_c1 (a b : Nat) (ha : a < 65536) (hb : b < 65536) :
    ((seqGt a b ∧ ¬ seqGt b a ∧ a ≠ b) ∨
     (¬ seqGt a b ∧ seqGt b a ∧ a ≠ b) ∨
     (¬ seqGt a b ∧ ¬ seqGt b a ∧ a = b)) ∧
    (a ≠ b → absDiff a b % 65536 ≠ 32768 →
      (seqGt a b ↔ seqDiffMod a b < 32768)) ∧
    seqGt 0 65535 ∧ seqGt 32767 65535 ∧ ¬ seqGt 32768 65535 := by
  refine ⟨?_, ?_, by decide, by decide, by decide⟩
  · by_cases hab : a = b
    · subst hab
      exact Or.inr (Or.inr ⟨by simp [seqGt, seqCmp], by simp [seqGt, seqCmp], rfl⟩)
    · rcases Nat.lt_or_ge b a with h | h
      · by_cases hd : a - b ≤ seqHalf
        · refine Or.inl ⟨?_, ?_, hab⟩
          · simp only [seqGt, seqCmp, if_neg hab]
            rw [if_pos (Or.inl ⟨h, hd⟩)]
          · simp only [seqGt, seqCmp]
            rw [if_neg (fun hba => hab hba.symm), if_neg]
            · simp
            · simp only [seqHalf] at *
              rintro (⟨h1, h2⟩ | ⟨h1, h2⟩) <;> omega
        · refine Or.inr (Or.inl ⟨?_, ?_, hab⟩)
          · simp only [seqGt, seqCmp, if_neg hab]
            rw [if_neg]
            · simp
            · simp only [seqHalf] at *
              rintro (⟨h1, h2⟩ | ⟨h1, h2⟩) <;> omega
          · simp only [seqGt, seqCmp]
            rw [if_neg (fun hba => hab hba.symm), if_pos]
            exact Or.inr ⟨h, by simp only [seqHalf] at *; omega⟩
      · have h' : a < b := by omega
        by_cases hd : seqHalf < b - a
        · refine Or.inl ⟨?_, ?_, hab⟩
          · simp only [seqGt, seqCmp, if_neg hab]
            rw [if_pos (Or.inr ⟨h', hd⟩)]
          · simp only [seqGt, seqCmp]
            rw [if_neg (fun hba => hab hba.symm), if_neg]
            · simp
            · simp only [seqHalf] at *
              rintro (⟨h1, h2⟩ | ⟨h1, h2⟩) <;> omega
        · refine Or.inr (Or.inl ⟨?_, ?_, hab⟩)
          · simp only [seqGt, seqCmp, if_neg hab]
            rw [if_neg]
            · simp
            · simp only [seqHalf] at *
              rintro (⟨h1, h2⟩ | ⟨h1, h2⟩) <;> omega
          · simp only [seqGt, seqCmp]
            rw [if_neg (fun hba => hab hba.symm), if_pos]
            exact Or.inl ⟨h', by simp only [seqHalf] at *; omega⟩
  · intro hab hside
    simp only [seqGt, seqCmp, if_neg hab, seqDiffMod, absDiff, seqHalf] at *
    rcases Nat.lt_or_ge b a with h | h
    · rw [if_pos (by omega : b ≤ a)] at hside
      constructor
      · intro hgt
        split at hgt
        · rename_i hcond
          rcases hcond with ⟨h1, h2⟩ | ⟨h1, h2⟩ <;> omega
        · exact absurd hgt (by simp)
      · intro hlt
        rw [if_pos (Or.inl ⟨h, by omega⟩)]
    · have h' : a < b := by omega
      rw [if_neg (by omega : ¬ b ≤ a)] at hside
      constructor
      · intro hgt
        split at hgt
        · rename_i hcond
          rcases hcond with ⟨h1, h2⟩ | ⟨h1, h2⟩ <;> omega
        · exact absurd hgt (by simp)
      · intro hlt
        rw [if_pos (Or.inr ⟨h', by omega⟩)]

/-- Witness for C1's amended theorem at `a = 0, b = 65535`. -/
theorem seqnum_order_c1_witness :
    (0 : Nat) < 65536 ∧ 65535 < 65536 ∧
    ((seqGt 0 65535 ∧ ¬ seqGt 65535 0 ∧ (0 : Nat) ≠ 65535) ∨
     (¬ seqGt 0 65535 ∧ seqGt 65535 0 ∧ (0 : Nat) ≠ 65535) ∨
     (¬ seqGt 0 65535 ∧ ¬ seqGt 65535 0 ∧ (0 : Nat) = 65535)) := by
  refine ⟨by decide, by decide, ?_⟩
  exact (seqnum_order_c1 0 65535 (by decide) (by decide)).1

/-! ### Helper lemmas on the user-table model -/

/-- Membership in a `broadcast` result: the message goes to exactly the
table's addresses other than `ignore`, always carrying `command`. -/
theorem mem_broadcast (users : List (Nat × User)) (command : ServerMessage)
    (ignore : Option Nat) (p : Nat × ServerMessage) :
    p ∈ broadcast users command ignore ↔
      (p.1 ∈ users.map Prod.fst ∧ some p.1 ≠ ignore ∧ p.2 = command) := by
  unfold broadcast
  rw [List.mem_filterMap]
  constructor
  · rintro ⟨a, ha, hga⟩
    split at hga
    · exact absurd hga (by simp)
    · rename_i hne
      cases hga
      exact ⟨List.mem_map_of_mem Prod.fst ha, hne, rfl⟩
  · rintro ⟨hmem, hne, hcmd⟩
    rw [List.mem_map] at hmem
    obtain ⟨a, ha, hfst⟩ := hmem
    refine ⟨a, ha, ?_⟩
    rw [hfst, if_neg hne]
    cases p
    simp only at hcmd hfst
    rw [hcmd]

/-- `refreshUsers` does not change the set of addresses. -/
theorem keys_refreshUsers (now addr : Nat) (users : List (Nat × User)) :
    (refreshUsers now addr users).map Prod.fst = users.map Prod.fst := by
  induction users with
  | nil => rfl
  | cons p rest ih =>
    simp only [refreshUsers, List.map_cons] at *
    by_cases h : p.1 = addr
    · rw [if_pos h]
      simpa using ih
    · rw [if_neg h]
      simpa using ih

/-- Looking up the refreshed address yields the old user with
`lastReply := now`. -/
theorem lookup_refreshUsers_self (now addr : Nat) (users : List (Nat × User)) :
    lookupUser (refreshUsers now addr users) addr =
      (lookupUser users addr).map (fun u => { u with lastReply := now }) := by
  induction users with
  | nil => rfl
  | cons p rest ih =>
    by_cases h : p.1 = addr
    · simp [lookupUser, refreshUsers, List.find?, h]
    · simp only [lookupUser, refreshUsers, List.map_cons, List.find?, if_neg h] at *
      rw [decide_eq_false h]
      simpa [lookupUser, refreshUsers] using ih

/-- Looking up a different address is unaffected by `refreshUsers`. -/
theorem lookup_refreshUsers_other (now addr a : Nat) (users : List (Nat × User))
    (h : a ≠ addr) :
    lookupUser (refreshUsers now addr users) a = lookupUser users a := by
  induction users with
  | nil => rfl
  | cons p rest ih =>
    by_cases hp : p.1 = addr
    · have hpa : p.1 ≠ a := by rw [hp]; exact fun hc => h hc.symm
      simp only [lookupUser, refreshUsers, List.map_cons, if_pos hp]
      rw [List.find?_cons_of_neg _ (by simpa using hpa),
        List.find?_cons_of_neg _ (by simpa using hpa)]
      simpa [lookupUser, refreshUsers] using ih
    · by_cases hpa : p.1 = a
      · simp only [lookupUser, refreshUsers, List.map_cons, if_neg hp]
        rw [List.find?_cons_of_pos _ (by simpa using hpa),
          List.find?_cons_of_pos _ (by simpa using hpa)]
      · simp only [lookupUser, refreshUsers, List.map_cons, if_neg hp]
        rw [List.find?_cons_of_neg _ (by simpa using hpa),
          List.find?_cons_of_neg _ (by simpa using hpa)]
        simpa [lookupUser, refreshUsers] using ih

/-- A looked-up entry that satisfies the filter predicate survives
filtering with the same lookup result. -/
theorem lookup_filter_of_pred (users : List (Nat × User)) (addr : Nat)
    (u : User) (pred : Nat × User → Bool) (h : lookupUser users addr = some u)
    (hp : pred (addr, u) = true) :
    lookupUser (users.filter pred) addr = some u := by
  induction users with
  | nil => simp [lookupUser] at h
  | cons p rest ih =>
    by_cases hpa : p.1 = addr
    · have hfind : lookupUser (p :: rest) addr = some p.2 := by
        simp only [lookupUser]
        rw [List.find?_cons_of_pos _ (by simpa using hpa)]
        rfl
      rw [hfind] at h
      have hu : p.2 = u := Option.some.inj h
      have hpair : p = (addr, u) := by
        cases p
        simp only at hpa hu
        rw [hpa, hu]
      rw [hpair]
      rw [List.filter_cons_of_pos hp]
      simp only [lookupUser]
      rw [List.find?_cons_of_pos _ (by simp)]
      rfl
    · have hstep : lookupUser (p :: rest) addr = lookupUser rest addr := by
        simp only [lookupUser]
        rw [List.find?_cons_of_neg _ (by simpa using hpa)]
      rw [hstep] at h
      by_cases hq : pred p = true
      · rw [List.filter_cons_of_pos hq]
        simp only [lookupUser]
        rw [List.find?_cons_of_neg _ (by simpa using hpa)]
        exact ih h
      · rw [List.filter_cons_of_neg (by simpa using hq)]
        exact ih h

/-- Filtering away a key makes its lookup fail. -/
theorem lookup_filter_ne (addr : Nat) (users : List (Nat × User)) :
    lookupUser (users.filter (fun p => p.1 ≠ addr)) addr = none := by
  induction users with
  | nil => rfl
  | cons p rest ih =>
    by_cases hp : p.1 = addr
    · rw [List.filter_cons_of_neg (by simp [hp])]
      exact ih
    · rw [List.filter_cons_of_pos (by simpa using hp)]
      simp only [lookupUser]
      rw [List.find?_cons_of_neg _ (by simpa using hp)]
      exact ih

/-! ### C2: heartbeat eviction -/

/-- C2 counterexample: with timeout 3, at tick time 10, the user at addr 1
(last reply at time 0) is evicted, but the tick sends nothing at all — in
particular no `Disconnected` is broadcast to the surviving addr 2, refuting
the claim that each removal broadcasts `Disconnected(user)` exactly once. -/
theorem heartbeat_eviction_c2_counterexample :
    lookupUser (heartbeatTick 10 3
        { users := [(1, ⟨0, "a", 1, 0⟩), (2, ⟨1, "b", 2, 10⟩)], counter := 2 }).state.users 1
      = none ∧
    (heartbeatTick 10 3
        { users := [(1, ⟨0, "a", 1, 0⟩), (2, ⟨1, "b", 2, 10⟩)], counter := 2 }).sends = [] := by
  constructor <;> rfl

/-- C2 (amended): on a heartbeat tick every user whose `last_reply` age is
`≥ timeout` is removed and users within the timeout are kept, but the tick
broadcasts nothing — heartbeat eviction is silent (only an explicit
`Disconnect` message triggers a `Disconnected` broadcast). -/
theorem heartbeat_eviction_c2 (now timeout : Nat) (st : ServerState)
    (addr : Nat) (u : User) :
    ((addr, u) ∈ (heartbeatTick now timeout st).state.users ↔
      (addr, u) ∈ st.users ∧ now - u.lastReply < timeout) ∧
    (heartbeatTick now timeout st).sends = [] := by
  constructor
  · simp [heartbeatTick, List.mem_filter]
  · rfl

/-! ### C4: duplicate Connect -/

/-- C4 counterexample: a `Connect` from the already-present addr 1 at time 5
changes the stored user — `last_reply` is refreshed from 0 to 5 — so the
user table is not left with every field of the existing `User` unmodified. -/
theorem connect_dup_c4_counterexample :
    (handleCommand 5 1 (ClientMessage.connect "a")
        { users := [(1, ⟨0, "a", 1, 0⟩)], counter := 1 }).state.users
      = [(1, ⟨0, "a", 1, 5⟩)] ∧
    (handleCommand 5 1 (ClientMessage.connect "a")
        { users := [(1, ⟨0, "a", 1, 0⟩)], counter := 1 }).state
      ≠ { users := [(1, ⟨0, "a", 1, 0⟩)], counter := 1 } := by
  constructor
  · rfl
  · decide

/-- C4 (amended): a `Connect` from an already-present addr keeps the table's
membership (same addresses, no duplicate, no eviction), modifies the
existing user only by refreshing `last_reply` to now, leaves every other
user and the id counter unchanged, logs an error, and sends nothing. -/
theorem connect_dup_c4 (now addr : Nat) (name : String) (st : ServerState)
    (u : User) (h : lookupUser st.users addr = some u) :
    (handleCommand now addr (ClientMessage.connect name) st).state.users.map Prod.fst
        = st.users.map Prod.fst ∧
    lookupUser (handleCommand now addr (ClientMessage.connect name) st).state.users addr
        = some { u with lastReply := now } ∧
    (∀ a, a ≠ addr →
      lookupUser (handleCommand now addr (ClientMessage.connect name) st).state.users a
        = lookupUser st.users a) ∧
    (handleCommand now addr (ClientMessage.connect name) st).state.counter = st.counter ∧
    (handleCommand now addr (ClientMessage.connect name) st).sends = [] ∧
    (handleCommand now addr (ClientMessage.connect name) st).logs ≠ [] := by
  have href : lookupUser (refreshUsers now addr st.users) addr
      = some { u with lastReply := now } := by
    rw [lookup_refreshUsers_self, h]; rfl
  have hout : handleCommand now addr (ClientMessage.connect name) st =
      { state := { st with users := refreshUsers now addr st.users },
        sends := [],
        logs := ["Connection from " ++ toString addr ++ " already exists"] } := by
    simp only [handleCommand, href]
  refine ⟨?_, ?_, ?_, ?_, ?_, ?_⟩
  · rw [hout]
    exact keys_refreshUsers now addr st.users
  · rw [hout]
    exact href
  · intro a ha
    rw [hout]
    exact lookup_refreshUsers_other now addr a st.users ha
  · rw [hout]
  · rw [hout]
  · rw [hout]
    simp

/-- Witness for C4's amended theorem: addr 1 present with `lastReply = 0`,
duplicate `Connect` at time 5. -/
theorem connect_dup_c4_witness :
    lookupUser [(1, (⟨0, "a", 1, 0⟩ : User))] 1 = some ⟨0, "a", 1, 0⟩ ∧
    (handleCommand 5 1 (ClientMessage.connect "a")
        { users := [(1, ⟨0, "a", 1, 0⟩)], counter := 1 }).sends = [] := by
  refine ⟨by rfl, ?_⟩
  exact (connect_dup_c4 5 1 "a" { users := [(1, ⟨0, "a", 1, 0⟩)], counter := 1 }
    ⟨0, "a", 1, 0⟩ (by rfl)).2.2.2.2.1

/-! ### C5: SeqNum addition -/

/-- C5: `SeqNum + u16` wraps (`wrapping_add`): `65535 + 1 = 0`; but
`SeqNum += u16` is plain `self.0 += rhs`, an unchecked u16 addition that
overflows at `65535 += 1` (a panic whenever overflow checks are enabled,
e.g. debug and test profiles) — and the client's outbound counter advances
with exactly that `+= 1`, so it hits the overflow instead of wrapping to 0. -/
theorem seq_addassign_c5 :
    seqAdd 65535 1 = 0 ∧
    seqAddAssign 65535 1 = none ∧
    clientSeqAdvance 65535 = none ∧
    seqAddAssign 65534 1 = some 65535 := by
  refine ⟨rfl, by decide, by decide, by decide⟩

/-! ### C3: voice fanout excludes the sender -/

/-- C3: handling a `Voice` from a present addr `A` broadcasts
`ServerMessage::Voice` (with `peer_id = user.id as u8`) to every address in
the user table other than `A`, never to `A` itself, and sends nothing else;
a `Voice` from an absent addr produces no send at all. -/
theorem voice_fanout_c3 (now A seq : Nat) (samples : List Nat) (st : ServerState) :
    (∀ u, lookupUser st.users A = some u →
      (∀ a, a ∈ st.users.map Prod.fst → a ≠ A →
        (a, ServerMessage.voice ⟨seq, u.id % 256, samples⟩)
          ∈ (handleCommand now A (ClientMessage.voice seq samples) st).sends) ∧
      (∀ m, (A, m) ∉ (handleCommand now A (ClientMessage.voice seq samples) st).sends) ∧
      (∀ e ∈ (handleCommand now A (ClientMessage.voice seq samples) st).sends,
        e.1 ∈ st.users.map Prod.fst ∧ e.1 ≠ A ∧
        e.2 = ServerMessage.voice ⟨seq, u.id % 256, samples⟩)) ∧
    (lookupUser st.users A = none →
      (handleCommand now A (ClientMessage.voice seq samples) st).sends = []) := by
  constructor
  · intro u hu
    have href : lookupUser (refreshUsers now A st.users) A
        = some { u with lastReply := now } := by
      rw [lookup_refreshUsers_self, hu]; rfl
    have hout : (handleCommand now A (ClientMessage.voice seq samples) st).sends
        = broadcast (refreshUsers now A st.users)
            (ServerMessage.voice ⟨seq, u.id % 256, samples⟩) (some A) := by
      simp only [handleCommand, href]
    refine ⟨?_, ?_, ?_⟩
    · intro a ha hne
      rw [hout, mem_broadcast]
      refine ⟨?_, by simpa using hne, rfl⟩
      rw [keys_refreshUsers]
      exact ha
    · intro m hm
      rw [hout, mem_broadcast] at hm
      exact hm.2.1 rfl
    · intro e he
      rw [hout, mem_broadcast] at he
      rw [keys_refreshUsers] at he
      refine ⟨he.1, ?_, he.2.2⟩
      intro hc
      exact he.2.1 (by rw [hc])
  · intro hnone
    have href : lookupUser (refreshUsers now A st.users) A = none := by
      rw [lookup_refreshUsers_self, hnone]; rfl
    simp only [handleCommand, href]

/-- Witness for C3 with two users: a `Voice` from addr 1 (id 7) is delivered
to addr 2 carrying `peer_id = 7 % 256`. -/
theorem voice_fanout_c3_witness :
    lookupUser [(1, (⟨7, "a", 1, 0⟩ : User)), (2, ⟨8, "b", 2, 0⟩)] 1
        = some ⟨7, "a", 1, 0⟩ ∧
    (2, ServerMessage.voice ⟨3, 7 % 256, [9]⟩)
      ∈ (handleCommand 5 1 (ClientMessage.voice 3 [9])
          { users := [(1, ⟨7, "a", 1, 0⟩), (2, ⟨8, "b", 2, 0⟩)], counter := 9 }).sends := by
  refine ⟨by rfl, ?_⟩
  exact ((voice_fanout_c3 5 1 3 [9]
      { users := [(1, ⟨7, "a", 1, 0⟩), (2, ⟨8, "b", 2, 0⟩)], counter := 9 }).1
    ⟨7, "a", 1, 0⟩ (by rfl)).1 2 (by decide) (by decide)

/-! ### C10: last_reply refresh on every decoded message -/

/-- C10: `handle_command` refreshes the present sender's `last_reply` to the
current instant for every message kind — including a duplicate `Connect` —
before dispatching; hence after handling any non-`Disconnect` message the
stored `last_reply` equals `now` and a later heartbeat tick within the
timeout keeps the user, while a `Disconnect` removes the user. -/
theorem handle_refresh_c10 (now addr : Nat) (cmd : ClientMessage)
    (st : ServerState) (u : User) (h : lookupUser st.users addr = some u) :
    (cmd ≠ ClientMessage.disconnect →
      lookupUser (handleCommand now addr cmd st).state.users addr
          = some { u with lastReply := now } ∧
      ∀ t timeout, t - now < timeout →
        lookupUser (heartbeatTick t timeout
            (handleCommand now addr cmd st).state).state.users addr
          = some { u with lastReply := now }) ∧
    (cmd = ClientMessage.disconnect → u.addr = addr →
      lookupUser (handleCommand now addr cmd st).state.users addr = none) := by
  have href : lookupUser (refreshUsers now addr st.users) addr
      = some { u with lastReply := now } := by
    rw [lookup_refreshUsers_self, h]; rfl
  constructor
  · intro hne
    have husers : (handleCommand now addr cmd st).state.users
        = refreshUsers now addr st.users := by
      cases cmd with
      | connect name => simp only [handleCommand, href]
      | disconnect => exact absurd rfl hne
      | ping => simp only [handleCommand, href]
      | voice s sa => simp only [handleCommand, href]
    refine ⟨by rw [husers]; exact href, ?_⟩
    intro t timeout ht
    simp only [heartbeatTick]
    rw [husers]
    exact lookup_filter_of_pred _ _ _ _ href (by simpa using ht)
  · intro hd haddr
    subst hd
    simp only [handleCommand, href, haddr]
    exact lookup_filter_ne addr _

/-- Witness for C10: a `Ping` from the present addr 1 at time 5 refreshes
`last_reply` to 5, and the heartbeat tick at time 6 (timeout 3) keeps the
user. -/
theorem handle_refresh_c10_witness :
    lookupUser [(1, (⟨0, "a", 1, 0⟩ : User))] 1 = some ⟨0, "a", 1, 0⟩ ∧
    lookupUser (handleCommand 5 1 ClientMessage.ping
        { users := [(1, ⟨0, "a", 1, 0⟩)], counter := 1 }).state.users 1
      = some ⟨0, "a", 1, 5⟩ ∧
    lookupUser (heartbeatTick 6 3 (handleCommand 5 1 ClientMessage.ping
        { users := [(1, ⟨0, "a", 1, 0⟩)], counter := 1 }).state).state.users 1
      = some ⟨0, "a", 1, 5⟩ := by
  refine ⟨by rfl, ?_, ?_⟩
  · exact ((handle_refresh_c10 5 1 ClientMessage.ping
      { users := [(1, ⟨0, "a", 1, 0⟩)], counter := 1 } ⟨0, "a", 1, 0⟩ (by rfl)).1
        (by decide)).1
  · exact ((handle_refresh_c10 5 1 ClientMessage.ping
      { users := [(1, ⟨0, "a", 1, 0⟩)], counter := 1 } ⟨0, "a", 1, 0⟩ (by rfl)).1
        (by decide)).2 6 3 (by decide)

/-! ### C8: malformed datagrams -/

/-- C8 counterexample: the client's receive path on a decode failure is
`ServerMessage::from_bytes(buf).expect("Invalid packet from server.")` — a
panic (modelled as `Except.error`), not a silent drop, refuting the claim
that the client drops a malformed server datagram without panicking. -/
theorem malformed_drop_c8_counterexample :
    clientRecv none = Except.error "Invalid packet from server." := rfl

/-- C8 (amended): the server drops a malformed datagram with only a parse
error log — the user table and counter are untouched and nothing is sent —
but the client panics (`expect`) on a malformed server datagram instead of
dropping it and continuing. -/
theorem malformed_drop_c8 :
    (∀ now addr st, (serverRecvStep now addr none st).state = st ∧
      (serverRecvStep now addr none st).sends = [] ∧
      (serverRecvStep now addr none st).logs = ["Failed to parse packet"]) ∧
    (∀ e, clientRecv none ≠ Except.ok e) := by
  refine ⟨fun now addr st => ⟨rfl, rfl, rfl⟩, fun e h => ?_⟩
  exact Except.noConfusion h

/-! ### C6: jitter-channel preroll -/

/-- The prefill loop of `Channel::new`: pushing `k` zeros into a buffer
with enough headroom succeeds and appends `k` zeros. -/
theorem channelNew_fold (k : Nat) : ∀ (l : List Int) (c : Nat),
    l.length + k ≤ c →
    (List.range k).foldlM (fun rb _ => rbPush 0 rb) (⟨c, l⟩ : Rb)
      = some ⟨c, l ++ List.replicate k 0⟩ := by
  induction k with
  | zero => intro l c _; simp
  | succ k ih =>
    intro l c hc
    rw [List.range_succ, List.foldlM_append]
    rw [ih l c (by omega)]
    have hlen : (l ++ List.replicate k 0).length < c := by
      rw [List.length_append, List.length_replicate]
      omega
    simp only [List.foldlM, Option.bind_eq_bind, Option.some_bind, rbPush, if_pos hlen]
    rw [List.replicate_succ' k (0 : Int)]
    simp [List.append_assoc]

/-- Popping `i ≤ n` times from a buffer of `n` queued zeros leaves `n - i`
queued zeros. -/
theorem rbPopN_replicate (i : Nat) : ∀ (c n : Nat),
    rbPopN ⟨c, List.replicate n 0⟩ i = ⟨c, List.replicate (n - i) 0⟩ := by
  induction i with
  | zero => intro c n; simp [rbPopN]
  | succ i ih =>
    intro c n
    cases n with
    | zero =>
      have h0 := ih c 0
      simp only [Nat.zero_sub, List.replicate] at h0
      simp only [Nat.zero_sub, List.replicate, rbPopN, rbPop]
      exact h0
    | succ m =>
      simp only [rbPopN, List.replicate_succ, rbPop]
      rw [ih c m, show m + 1 - (i + 1) = m - i from by omega]

/-- C6: right after `Channel::new(latency)` the ring buffer has capacity
`2 × latency.samples` and holds exactly `latency.samples` zeros (every
prefill `unwrap` succeeds); hence pops 0 .. samples−1 each return zero and
the pop after them returns `None`, before any producer push. -/
theorem channel_preroll_c6 (s : Nat) :
    channelNew s = some ⟨2 * s, List.replicate s 0⟩ ∧
    (∀ i, i < s → (rbPop (rbPopN ⟨2 * s, List.replicate s 0⟩ i)).1 = some 0) ∧
    (rbPop (rbPopN ⟨2 * s, List.replicate s 0⟩ s)).1 = none := by
  refine ⟨?_, ?_, ?_⟩
  · unfold channelNew
    have := channelNew_fold s ([] : List Int) (2 * s)
      (by simp only [List.length_nil]; omega)
    simpa using this
  · intro i hi
    rw [rbPopN_replicate]
    have : s - i = (s - i - 1) + 1 := by omega
    rw [this, List.replicate_succ]
    rfl
  · rw [rbPopN_replicate]
    simp [rbPop]

/-- Witness for C6 at `samples = 3`, pop index 1. -/
theorem channel_preroll_c6_witness :
    (1 : Nat) < 3 ∧ (rbPop (rbPopN ⟨2 * 3, List.replicate 3 0⟩ 1)).1 = some 0 :=
  ⟨by decide, (channel_preroll_c6 3).2.1 1 (by decide)⟩

/-! ### C7: mixer additivity -/

/-- If every channel is empty, the per-pop sum is zero. -/
theorem headsSum_of_all_empty (chs : List (List Int))
    (h : ∀ ch ∈ chs, ch = []) : headsSum chs = 0 := by
  induction chs with
  | nil => rfl
  | cons ch rest ih =>
    have hch : ch = [] := h ch (by simp)
    have hrest := ih (fun c hc => h c (by simp [hc]))
    simp [headsSum, hch] at *
    simpa using hrest

/-- Value of the accumulator fold in `PeerMixer::next`. -/
theorem mixerNextAux_fst (chs : List (List Int)) : ∀ acc : Option Int,
    (mixerNextAux acc chs).1 =
      if ∀ ch ∈ chs, ch = [] then acc else some (acc.getD 0 + headsSum chs) := by
  induction chs with
  | nil => intro acc; simp [mixerNextAux]
  | cons ch rest ih =>
    intro acc
    cases ch with
    | nil =>
      simp only [mixerNextAux]
      rw [ih acc]
      by_cases h : ∀ c ∈ rest, c = []
      · rw [if_pos h, if_pos (by simpa using h)]
      · rw [if_neg h, if_neg (by simpa using h)]
        simp [headsSum]
    | cons x xs =>
      simp only [mixerNextAux]
      rw [ih (some ((acc.getD 0) + x))]
      have hne : ¬ ∀ ch ∈ (x :: xs) :: rest, ch = [] := by
        intro hall
        exact List.cons_ne_nil x xs (hall (x :: xs) (by simp))
      rw [if_neg hne]
      by_cases h : ∀ ch ∈ rest, ch = []
      · rw [if_pos h]
        rw [headsSum, List.map_cons, List.sum_cons]
        rw [show (rest.map (fun ch => ch.headD 0)).sum = headsSum rest from rfl]
        rw [headsSum_of_all_empty rest h]
        simp
      · rw [if_neg h]
        simp only [Option.getD_some, headsSum, List.map_cons, List.sum_cons, List.headD]
        rw [add_assoc]

/-- `PeerMixer::next` advances every channel by one popped sample. -/
theorem mixerNextAux_snd (chs : List (List Int)) : ∀ acc : Option Int,
    (mixerNextAux acc chs).2 = chs.map List.tail := by
  induction chs with
  | nil => intro acc; simp [mixerNextAux]
  | cons ch rest ih =>
    intro acc
    cases ch with
    | nil => simp only [mixerNextAux, List.map_cons]; rw [ih acc]; rfl
    | cons x xs => simp only [mixerNextAux, List.map_cons]; rw [ih]; rfl

/-- The value of one `next()` call: `None` iff every channel underruns,
else the sum of the popped samples. -/
theorem mixerNext_fst (chs : List (List Int)) :
    (mixerNext chs).1 =
      if ∀ ch ∈ chs, ch = [] then none else some (headsSum chs) := by
  rw [mixerNext, mixerNextAux_fst]
  by_cases h : ∀ ch ∈ chs, ch = []
  · rw [if_pos h, if_pos h]
  · rw [if_neg h, if_neg h]
    simp

/-- C7: with two active peers whose channels hold `A` and `B`, the `i`-th
`next()` returns `A[i] + B[i]` (an exhausted channel contributing zero) as
long as either channel still has a sample, and `None` once both are
exhausted; in general one `next()` returns `None` iff no channel produced a
sample, else the sum of the samples popped on that call. -/
theorem mixer_additivity_c7 :
    (∀ (A B : List Int) (i : Nat),
      mixerIter i [A, B] =
        if i < max A.length B.length then some (A.getD i 0 + B.getD i 0) else none) ∧
    (∀ chs : List (List Int), ((mixerNext chs).1 = none ↔ ∀ ch ∈ chs, ch = [])) ∧
    (∀ chs : List (List Int), (∃ ch ∈ chs, ch ≠ []) →
      (mixerNext chs).1 = some (headsSum chs)) := by
  refine ⟨?_, ?_, ?_⟩
  · intro A B i
    induction i generalizing A B with
    | zero =>
      rw [mixerIter, mixerNext_fst]
      cases A with
      | nil =>
        cases B with
        | nil => simp
        | cons b bs =>
          rw [if_neg (by simp), if_pos (by simp)]
          simp [headsSum]
      | cons a as =>
        cases B with
        | nil =>
          rw [if_neg (by simp), if_pos (by simp [Nat.lt_succ_iff])]
          simp [headsSum]
        | cons b bs =>
          rw [if_neg (by simp), if_pos (by simp [Nat.lt_succ_iff])]
          simp [headsSum]
    | succ i ih =>
      rw [mixerIter, show (mixerNext [A, B]).2 = [A.tail, B.tail] by
        rw [mixerNext, mixerNextAux_snd]; rfl]
      rw [ih]
      have hA : A.tail.getD i 0 = A.getD (i + 1) 0 := by cases A <;> simp
      have hB : B.tail.getD i 0 = B.getD (i + 1) 0 := by cases B <;> simp
      have hcond : (i < max A.tail.length B.tail.length) ↔
          (i + 1 < max A.length B.length) := by
        cases A <;> cases B <;> simp <;> omega
      rw [hA, hB, if_congr hcond rfl rfl]
  · intro chs
    rw [mixerNext_fst]
    by_cases h : ∀ ch ∈ chs, ch = []
    · rw [if_pos h]
      exact iff_of_true rfl h
    · rw [if_neg h]
      exact iff_of_false (by simp) h
  · intro chs h
    rw [mixerNext_fst, if_neg]
    intro hall
    obtain ⟨ch, hmem, hne⟩ := h
    exact hne (hall ch hmem)

/-- Witness for C7: channels `[5]` and `[7]` make the first `next()` return
`5 + 7`. -/
theorem mixer_additivity_c7_witness :
    (∃ ch ∈ [[(5 : Int)], [7]], ch ≠ []) ∧
    (mixerNext [[(5 : Int)], [7]]).1 = some (headsSum [[(5 : Int)], [7]]) :=
  ⟨⟨[5], by simp⟩, mixer_additivity_c7.2.2 [[(5 : Int)], [7]] ⟨[5], by simp⟩⟩

/-! ### C9: u8 peer ids and the 255-slot mixer -/

/-- C9: the server truncates the u32 id into the wire `peer_id`
(`id as u8`, here id 255 stays 255 and is relayed to the other user), but
the mixer's `peers` array has only `MAX_PEERS = u8::MAX as usize = 255`
slots, so `add_peer`/`push_data` hit the `expect("peer id out of bounds")`
panic at `peer_id = 255` while 254 still succeeds — the claimed 256-peer
cap does not hold, contradicting the code's own `// max 256 peers` comment. -/
theorem peer_cap_c9 :
    (handleCommand 5 1 (ClientMessage.voice 0 [2])
        { users := [(1, ⟨255, "a", 1, 0⟩), (2, ⟨3, "b", 2, 0⟩)], counter := 256 }).sends
      = [(2, ServerMessage.voice ⟨0, 255, [2]⟩)] ∧
    addPeer 255 mixerNew = Except.error "peer id out of bounds" ∧
    pushData ⟨0, 255, []⟩ mixerNew = Except.error "peer id out of bounds" ∧
    (∃ m, addPeer 254 mixerNew = Except.ok m) := by
  refine ⟨rfl, ?_, ?_, ?_⟩
  · rfl
  · rfl
  · exact ⟨_, rfl⟩

end RustVoice
